import Mathlib

/-!
Verification of the tracked-allocation engine of the memory_control repository.

The development shallowly embeds, faithfully to the C++ sources:
  * `thread_safe.h`   : `SafeNumeric` counter operations (policies `NONE` and
    `STD_ATOMIC`, the latter modelled in its single-threaded execution);
  * `memory_tracker.h`: the no-op tracker (`MemoryTracker`), the aggregate
    tracker (`BasicMemoryTracker`) and the per-pointer tracker
    (`DetailedMemoryTracker`) with its registry (an `unordered_map`
    modelled as an association list with unique keys);
  * `memory_manager.h`: `MemoryManager::alloc_static / realloc_static /
    free_static` with the size header written `DATA_OFFSET` bytes ahead of
    the user pointer, together with the `MemoryManager<HighPerformanceConfig>`
    specialization of `free_static`.

All counters are `memory_uint64_t` (= `std::uint64_t`), so every arithmetic
update is taken modulo `2 ^ 64`, exactly as the machine does.
-/

/-- `2 ^ 64`, the modulus of `memory_uint64_t` arithmetic. -/
def U64M : Nat := 2 ^ 64

/-- `SafeNumeric<uint64_t>::add(p_value)`: `value += p_value; return value;`
(wrapping unsigned 64-bit addition); the returned value is also the new
stored value. -/
def sn_add (value p_value : Nat) : Nat := (value + p_value) % U64M

/-- `SafeNumeric<uint64_t>::sub(p_value)`: `value -= p_value; return value;`
(wrapping unsigned 64-bit subtraction, expressed on `Nat` by adding the
two-complement of the subtrahend). -/
def sn_sub (value p_value : Nat) : Nat := (value + (U64M - p_value % U64M)) % U64M

/-- `SafeNumeric<uint64_t>::increment()`: `return ++value;`. -/
def sn_increment (value : Nat) : Nat := (value + 1) % U64M

/-- `SafeNumeric<uint64_t>::exchange_if_greater(p_value)` under policy `NONE`:
`if (p_value > value) value = p_value; return value;` — the new stored value.
(Comparison of two `uint64_t` values; no arithmetic, hence no wrap.) -/
def sn_exchange_if_greater (value p_value : Nat) : Nat :=
  if p_value > value then p_value else value

/-- `SafeNumeric<T, ThreadSafetyPolicy::NONE>::exchange_if_greater` returning
the pair (new stored value, returned value).  The source returns `value`
after the conditional store, so the two components coincide. -/
def exchangeIfGreaterNone (value p_value : Nat) : Nat × Nat :=
  if p_value > value then (p_value, p_value) else (value, value)

/-- `SafeNumeric<T, ThreadSafetyPolicy::STD_ATOMIC>::exchange_if_greater`,
modelled in a single-threaded execution: `current = load(value)`; the CAS
loop `while (p_value > current) if (CAS(value, current, p_value)) return
p_value;` succeeds on its first attempt because no other thread mutates
`value` between the load and the CAS, so the loop runs at most once.
Returns (new stored value, returned value). -/
def exchangeIfGreaterAtomic (value p_value : Nat) : Nat × Nat :=
  let current := value
  if p_value > current then (p_value, p_value) else (value, current)

/-- The five statistics accumulators shared by the aggregate and detailed
trackers (`current_usage_`, `peak_usage_`, `allocation_count_`,
`deallocation_count_`, `reallocation_count_`), each a
`SafeNumeric<memory_uint64_t>` value-initialized to zero. -/
structure TrackerCounters where
  current_usage : Nat
  peak_usage : Nat
  allocation_count : Nat
  deallocation_count : Nat
  reallocation_count : Nat
deriving Repr, DecidableEq

/-- The zero-initialized counter block (`inline static ... CounterType {}`). -/
def initCounters : TrackerCounters := ⟨0, 0, 0, 0, 0⟩

/-- `MemoryStats` (memory_tracker.h): seven `memory_uint64_t` fields. -/
structure MemoryStats where
  total_allocated : Nat
  total_freed : Nat
  current_usage : Nat
  peak_usage : Nat
  allocation_count : Nat
  deallocation_count : Nat
  reallocation_count : Nat
deriving Repr, DecidableEq

/-- `MemoryStats{}`: all fields zero. -/
def MemoryStats.zero : MemoryStats := ⟨0, 0, 0, 0, 0, 0, 0⟩

/-- `BasicMemoryTracker::track_allocation` (tracking enabled):
`new_usage = current_usage_.add(size); peak_usage_.exchange_if_greater(new_usage);
allocation_count_.increment();`. -/
def BasicMemoryTracker.track_allocation (t : TrackerCounters) (size : Nat) : TrackerCounters :=
  let new_usage := sn_add t.current_usage size
  { t with
    current_usage := new_usage
    peak_usage := sn_exchange_if_greater t.peak_usage new_usage
    allocation_count := sn_increment t.allocation_count }

/-- `BasicMemoryTracker::track_deallocation`:
`current_usage_.sub(size); deallocation_count_.increment();`. -/
def BasicMemoryTracker.track_deallocation (t : TrackerCounters) (size : Nat) : TrackerCounters :=
  { t with
    current_usage := sn_sub t.current_usage size
    deallocation_count := sn_increment t.deallocation_count }

/-- `BasicMemoryTracker::track_reallocation`: adds `new_size - old_size` to
current usage (updating the peak) when growing, subtracts `old_size -
new_size` when shrinking, and always increments the reallocation counter. -/
def BasicMemoryTracker.track_reallocation (t : TrackerCounters) (old_size new_size : Nat) :
    TrackerCounters :=
  if new_size > old_size then
    let new_usage := sn_add t.current_usage (new_size - old_size)
    { t with
      current_usage := new_usage
      peak_usage := sn_exchange_if_greater t.peak_usage new_usage
      reallocation_count := sn_increment t.reallocation_count }
  else if old_size > new_size then
    { t with
      current_usage := sn_sub t.current_usage (old_size - new_size)
      reallocation_count := sn_increment t.reallocation_count }
  else
    { t with reallocation_count := sn_increment t.reallocation_count }

/-- `BasicMemoryTracker::get_stats` (tracking enabled): copies the five
counters and sets `total_allocated = allocation_count`,
`total_freed = deallocation_count` (the code comments both `// Simplified`). -/
def BasicMemoryTracker.get_stats (t : TrackerCounters) : MemoryStats :=
  { current_usage := t.current_usage
    peak_usage := t.peak_usage
    allocation_count := t.allocation_count
    deallocation_count := t.deallocation_count
    reallocation_count := t.reallocation_count
    total_allocated := t.allocation_count
    total_freed := t.deallocation_count }

/-- `BasicMemoryTracker::reset_stats`: sets the five counters to zero. -/
def BasicMemoryTracker.reset_stats (_t : TrackerCounters) : TrackerCounters := initCounters

/-- The no-op tracker `MemoryTracker<Config>` (TRACKING_LEVEL == NONE) has no
state at all; its history is modelled on `Unit`. -/
abbrev NoopState := Unit

/-- `MemoryTracker::track_allocation`: empty body. -/
def MemoryTracker.track_allocation (s : NoopState) (_size : Nat) : NoopState := s

/-- `MemoryTracker::track_deallocation`: empty body. -/
def MemoryTracker.track_deallocation (s : NoopState) (_size : Nat) : NoopState := s

/-- `MemoryTracker::track_reallocation`: empty body. -/
def MemoryTracker.track_reallocation (s : NoopState) (_old _new : Nat) : NoopState := s

/-- `MemoryTracker::get_current_usage`: `return 0;`. -/
def MemoryTracker.get_current_usage : Nat := 0

/-- `MemoryTracker::get_peak_usage`: `return 0;`. -/
def MemoryTracker.get_peak_usage : Nat := 0

/-- `MemoryTracker::get_allocation_count`: `return 0;`. -/
def MemoryTracker.get_allocation_count : Nat := 0

/-- `MemoryTracker::get_stats`: `return MemoryStats{};`. -/
def MemoryTracker.get_stats : MemoryStats := MemoryStats.zero

/-- `MemoryTracker::reset_stats`: empty body. -/
def MemoryTracker.reset_stats (s : NoopState) : NoopState := s

/-- `MemoryTracker::dump_allocations`: empty body — reports nothing. -/
def MemoryTracker.dump_allocations : List MemoryStats := []

/-- `AllocationInfo` (memory_tracker.h): size, source location, timestamp and
allocation id of one live allocation.  `const char*` fields are modelled as
`String`, `int line` as `Nat`. -/
structure AllocationInfo where
  size : Nat
  file : String
  line : Nat
  function : String
  timestamp : Nat
  allocation_id : Nat
deriving Repr, DecidableEq

/-- Registry of live allocations: `std::unordered_map<void*, AllocationInfo>`
modelled as an association list keyed by the pointer value (a `Nat`); keys
are unique in every registry the tracker builds. -/
abbrev AllocRegistry := List (Nat × AllocationInfo)

/-- `allocations_[ptr] = info`: overwrite the entry for `ptr` if present,
otherwise add one. -/
def mapInsert (l : AllocRegistry) (k : Nat) (v : AllocationInfo) : AllocRegistry :=
  match l with
  | [] => [(k, v)]
  | (k', v') :: rest => if k' = k then (k, v) :: rest else (k', v') :: mapInsert rest k v

/-- `allocations_.find(ptr)`. -/
def mapFind (l : AllocRegistry) (k : Nat) : Option AllocationInfo :=
  match l with
  | [] => none
  | (k', v') :: rest => if k' = k then some v' else mapFind rest k

/-- `allocations_.erase(it)`: remove the entry for `ptr` (the first match;
keys are unique in reachable registries). -/
def mapErase (l : AllocRegistry) (k : Nat) : AllocRegistry :=
  match l with
  | [] => []
  | (k', v') :: rest => if k' = k then rest else (k', v') :: mapErase rest k

/-- State of `DetailedMemoryTracker`: the five counters, the
`next_allocation_id_` counter and the `allocations_` registry. -/
structure DetailedTrackerState where
  counters : TrackerCounters
  next_allocation_id : Nat
  allocations : AllocRegistry
deriving Repr, DecidableEq

/-- Zero-initialized detailed tracker state. -/
def initDetailed : DetailedTrackerState := ⟨initCounters, 0, []⟩

/-- `DetailedMemoryTracker::track_allocation` (no pointer): same counter
updates as the basic tracker, plus `next_allocation_id_.increment()`; the
registry is not touched (the code comments that it would need the pointer). -/
def DetailedMemoryTracker.track_allocation (d : DetailedTrackerState) (size : Nat) :
    DetailedTrackerState :=
  let new_usage := sn_add d.counters.current_usage size
  { d with
    counters := { d.counters with
      current_usage := new_usage
      peak_usage := sn_exchange_if_greater d.counters.peak_usage new_usage
      allocation_count := sn_increment d.counters.allocation_count }
    next_allocation_id := sn_increment d.next_allocation_id }

/-- `DetailedMemoryTracker::track_allocation_with_ptr`: counter updates as
above, then `allocations_[ptr] = AllocationInfo(size, file, line, function,
0, alloc_id)` (the timestamp is hard-coded to 0 in the source). -/
def DetailedMemoryTracker.track_allocation_with_ptr (d : DetailedTrackerState)
    (ptr size : Nat) (file : String) (line : Nat) (function : String) :
    DetailedTrackerState :=
  let new_usage := sn_add d.counters.current_usage size
  let alloc_id := sn_increment d.next_allocation_id
  { counters := { d.counters with
      current_usage := new_usage
      peak_usage := sn_exchange_if_greater d.counters.peak_usage new_usage
      allocation_count := sn_increment d.counters.allocation_count }
    next_allocation_id := alloc_id
    allocations := mapInsert d.allocations ptr ⟨size, file, line, function, 0, alloc_id⟩ }

/-- `DetailedMemoryTracker::track_deallocation` (no pointer): identical to
the basic tracker; the registry is not consulted. -/
def DetailedMemoryTracker.track_deallocation (d : DetailedTrackerState) (size : Nat) :
    DetailedTrackerState :=
  { d with
    counters := { d.counters with
      current_usage := sn_sub d.counters.current_usage size
      deallocation_count := sn_increment d.counters.deallocation_count } }

/-- `DetailedMemoryTracker::track_deallocation_with_ptr`: look the pointer up;
if found, subtract the *stored* size from current usage and erase the record;
in either case increment the deallocation counter. -/
def DetailedMemoryTracker.track_deallocation_with_ptr (d : DetailedTrackerState)
    (ptr : Nat) : DetailedTrackerState :=
  match mapFind d.allocations ptr with
  | some info =>
      { d with
        counters := { d.counters with
          current_usage := sn_sub d.counters.current_usage info.size
          deallocation_count := sn_increment d.counters.deallocation_count }
        allocations := mapErase d.allocations ptr }
  | none =>
      { d with
        counters := { d.counters with
          deallocation_count := sn_increment d.counters.deallocation_count } }

/-- `DetailedMemoryTracker::track_reallocation`: identical to the basic
tracker; the registry is not consulted. -/
def DetailedMemoryTracker.track_reallocation (d : DetailedTrackerState)
    (old_size new_size : Nat) : DetailedTrackerState :=
  if new_size > old_size then
    let new_usage := sn_add d.counters.current_usage (new_size - old_size)
    { d with
      counters := { d.counters with
        current_usage := new_usage
        peak_usage := sn_exchange_if_greater d.counters.peak_usage new_usage
        reallocation_count := sn_increment d.counters.reallocation_count } }
  else if old_size > new_size then
    { d with
      counters := { d.counters with
        current_usage := sn_sub d.counters.current_usage (old_size - new_size)
        reallocation_count := sn_increment d.counters.reallocation_count } }
  else
    { d with
      counters := { d.counters with
        reallocation_count := sn_increment d.counters.reallocation_count } }

/-- `DetailedMemoryTracker::get_stats`: like the basic tracker, with
`total_allocated = allocation_count` and `total_freed = deallocation_count`. -/
def DetailedMemoryTracker.get_stats (d : DetailedTrackerState) : MemoryStats :=
  BasicMemoryTracker.get_stats d.counters

/-- `DetailedMemoryTracker::reset_stats`: zero the counters, zero
`next_allocation_id_`, clear the registry. -/
def DetailedMemoryTracker.reset_stats (_d : DetailedTrackerState) : DetailedTrackerState :=
  initDetailed

/-- One leak line produced by `DetailedMemoryTracker::dump_allocations`:
the record's size, file and line (they form the message) and the function
name passed to `_memory_report_error`. -/
structure LeakEntry where
  size : Nat
  file : String
  line : Nat
  function : String
deriving Repr, DecidableEq

/-- `DetailedMemoryTracker::dump_allocations`: one report per registered
record, in registry order; nothing when the registry is empty. -/
def DetailedMemoryTracker.dump_allocations (d : DetailedTrackerState) : List LeakEntry :=
  d.allocations.map (fun e => ⟨e.2.size, e.2.file, e.2.line, e.2.function⟩)

/-- One tracking call: the argument of `track_allocation`,
`track_deallocation` or `track_reallocation` (no reset occurs in the
histories we consider, matching the claims' premise). -/
inductive TrackOp where
  | alloc (size : Nat)
  | dealloc (size : Nat)
  | realloc (old_size new_size : Nat)
deriving Repr, DecidableEq

/-- Dispatch one tracking call to the aggregate tracker. -/
def stepBasic (t : TrackerCounters) (op : TrackOp) : TrackerCounters :=
  match op with
  | .alloc s => BasicMemoryTracker.track_allocation t s
  | .dealloc s => BasicMemoryTracker.track_deallocation t s
  | .realloc o n => BasicMemoryTracker.track_reallocation t o n

/-- Run a sequence of tracking calls on the aggregate tracker. -/
def runBasic (t : TrackerCounters) (ops : List TrackOp) : TrackerCounters :=
  ops.foldl stepBasic t

/-- Dispatch one (pointer-less) tracking call to the detailed tracker. -/
def stepDetailed (d : DetailedTrackerState) (op : TrackOp) : DetailedTrackerState :=
  match op with
  | .alloc s => DetailedMemoryTracker.track_allocation d s
  | .dealloc s => DetailedMemoryTracker.track_deallocation d s
  | .realloc o n => DetailedMemoryTracker.track_reallocation d o n

/-- Run a sequence of tracking calls on the detailed tracker. -/
def runDetailed (d : DetailedTrackerState) (ops : List TrackOp) : DetailedTrackerState :=
  ops.foldl stepDetailed d

/-- The values of `current_usage` observed at every quiescent point while
running `ops` from `t`: before the first call and after each call. -/
def currentTrace (t : TrackerCounters) : List TrackOp → List Nat
  | [] => [t.current_usage]
  | op :: rest => t.current_usage :: currentTrace (stepBasic t op) rest

/-- Ghost multiset of outstanding allocation sizes after running `ops`
from outstanding state `out` (a list used as a multiset). -/
def outAfter (out : List Nat) : List TrackOp → List Nat
  | [] => out
  | .alloc s :: rest => outAfter (s :: out) rest
  | .dealloc s :: rest => outAfter (out.erase s) rest
  | .realloc o n :: rest => outAfter (n :: out.erase o) rest

/-- Correct pairing, exactly as the claim words it: every deallocation
(and every reallocation's old size) matches an outstanding allocation. -/
def pairedFrom (out : List Nat) : List TrackOp → Bool
  | [] => true
  | .alloc s :: rest => pairedFrom (s :: out) rest
  | .dealloc s :: rest => decide (s ∈ out) && pairedFrom (out.erase s) rest
  | .realloc o n :: rest => decide (o ∈ out) && pairedFrom (n :: out.erase o) rest

/-- Correct pairing strengthened by the no-overflow side condition: the
total of outstanding sizes stays below `2 ^ 64` at every point. -/
def boundedPaired (out : List Nat) : List TrackOp → Bool
  | [] => true
  | .alloc s :: rest =>
      decide (out.sum + s < U64M) && boundedPaired (s :: out) rest
  | .dealloc s :: rest => decide (s ∈ out) && boundedPaired (out.erase s) rest
  | .realloc o n :: rest =>
      decide (o ∈ out) && decide ((out.erase o).sum + n < U64M) &&
        boundedPaired (n :: out.erase o) rest

/-- `MemoryPaddingPolicy` (memory_config.h). -/
inductive MemoryPaddingPolicy where
  | NONE
  | DEBUG_ONLY
  | ALWAYS
  | CONFIGURABLE
deriving Repr, DecidableEq

/-- `MemoryManager::should_use_padding(p_pad_align)`, with the compile-time
`MEMORY_DEBUG_ENABLED` flag passed explicitly. -/
def should_use_padding (policy : MemoryPaddingPolicy) (debugEnabled : Bool)
    (p_pad_align : Bool) : Bool :=
  match policy with
  | .NONE => false
  | .ALWAYS => true
  | .DEBUG_ONLY => debugEnabled
  | .CONFIGURABLE => p_pad_align

/-- `MemoryConfig::SIZE_OFFSET = 0`. -/
def SIZE_OFFSET : Nat := 0

/-- `MemoryConfig::ELEMENT_OFFSET`, computed as in memory_config.h with
`sizeof(memory_uint64_t) = 8` and `alignof(memory_uint64_t) = 8`. -/
def ELEMENT_OFFSET : Nat :=
  if (SIZE_OFFSET + 8) % 8 = 0 then SIZE_OFFSET + 8
  else SIZE_OFFSET + 8 + (8 - (SIZE_OFFSET + 8) % 8)

/-- `MemoryConfig::DATA_OFFSET`, computed as in memory_config.h with
`alignof(std::max_align_t) = 16`. -/
def DATA_OFFSET : Nat :=
  if (ELEMENT_OFFSET + 8) % 16 = 0 then ELEMENT_OFFSET + 8
  else ELEMENT_OFFSET + 8 + (16 - (ELEMENT_OFFSET + 8) % 16)

/-- Byte-addressed store of `uint64_t` header cells: `h a` is the 64-bit
value stored at byte address `a`.  Only the size-header cell of each block
is ever accessed through this model. -/
def Heap : Type := Nat → Nat

/-- `*(uint64_t*)(addr) = v` (a `uint64_t` store truncates to 64 bits). -/
def storeU64 (h : Heap) (addr v : Nat) : Heap :=
  fun a => if a = addr then v % U64M else h a

/-- `*(uint64_t*)(addr)`. -/
def loadU64 (h : Heap) (addr : Nat) : Nat := h addr

/-- Result of `MemoryManager::alloc_static`: the updated heap, the pointer
returned to the caller, and the tracking calls issued (in order).  `base`
is the address of the raw block obtained from `malloc`/`calloc`, which is
assumed to succeed (on failure the code returns early and none of the
modelled effects happen). -/
structure AllocEffect where
  heap : Heap
  ret : Nat
  trackedEvents : List TrackOp

/-- `MemoryManager::alloc_static(p_bytes, p_pad_align)`: when padding is on,
write `p_bytes` into the `uint64_t` size header at `base + SIZE_OFFSET` and
return `base + DATA_OFFSET`; either way report `track_allocation(p_bytes)`. -/
def MemoryManager.alloc_static (policy : MemoryPaddingPolicy) (debugEnabled : Bool)
    (h : Heap) (base p_bytes : Nat) (p_pad_align : Bool) : AllocEffect :=
  let prepad := should_use_padding policy debugEnabled p_pad_align
  if prepad then
    { heap := storeU64 h (base + SIZE_OFFSET) p_bytes
      ret := base + DATA_OFFSET
      trackedEvents := [.alloc p_bytes] }
  else
    { heap := h, ret := base, trackedEvents := [.alloc p_bytes] }

/-- Result of `MemoryManager::free_static`: whether the null-pointer error
was reported, the raw addresses handed to `std::free`, and the tracking
calls issued. -/
structure FreeEffect where
  nullErrorReported : Bool
  systemFrees : List Nat
  trackedEvents : List TrackOp
deriving Repr, DecidableEq

/-- `MemoryManager::free_static(p_ptr, p_pad_align)`: `MEMORY_ERR_FAIL_NULL`
reports and returns on a null pointer; otherwise, when padded, step back
`DATA_OFFSET` bytes, read the stored size, report it to
`track_deallocation` and free the raw block; when unpadded, report size 0
and free the pointer as is.  The null pointer is address 0. -/
def MemoryManager.free_static (policy : MemoryPaddingPolicy) (debugEnabled : Bool)
    (h : Heap) (p_ptr : Nat) (p_pad_align : Bool) : FreeEffect :=
  if p_ptr = 0 then
    { nullErrorReported := true, systemFrees := [], trackedEvents := [] }
  else
    let prepad := should_use_padding policy debugEnabled p_pad_align
    if prepad then
      let mem := p_ptr - DATA_OFFSET
      let size := loadU64 h (mem + SIZE_OFFSET)
      { nullErrorReported := false
        systemFrees := [mem]
        trackedEvents := [.dealloc size] }
    else
      { nullErrorReported := false
        systemFrees := [p_ptr]
        trackedEvents := [.dealloc 0] }

/-- `MemoryManager<HighPerformanceConfig>::free_static(p_ptr, p_pad_align)`:
the high-performance specialization is `std::free(p_ptr);` — no null check,
no error report, no tracking. -/
def HighPerformanceManager.free_static (p_ptr : Nat) : FreeEffect :=
  { nullErrorReported := false, systemFrees := [p_ptr], trackedEvents := [] }

/-- Result of `MemoryManager::realloc_static`. -/
structure ReallocEffect where
  heap : Heap
  ret : Nat
  systemFrees : List Nat
  trackedEvents : List TrackOp

/-- `MemoryManager::realloc_static(p_memory, p_bytes, p_pad_align)`.
A null input delegates to `alloc_static`.  When padded: read the old size
from the header, report `track_reallocation(old_size, p_bytes)`; if
`p_bytes == 0` free the raw block and return null, otherwise rewrite the
header (before and, at the possibly moved block `freshBase` returned by
`std::realloc`, after the resize) and return `freshBase + DATA_OFFSET`.
When unpadded: report `track_reallocation(0, p_bytes)` and resize in place.
`freshBase` models the raw address chosen by `std::realloc` (the system
copy of the block's contents is not modelled beyond the header cell, which
the code rewrites right after the resize and which is the only cell this
model reads back). -/
def MemoryManager.realloc_static (policy : MemoryPaddingPolicy) (debugEnabled : Bool)
    (h : Heap) (p_memory p_bytes : Nat) (p_pad_align : Bool) (freshBase : Nat) :
    ReallocEffect :=
  if p_memory = 0 then
    let a := MemoryManager.alloc_static policy debugEnabled h freshBase p_bytes p_pad_align
    { heap := a.heap, ret := a.ret, systemFrees := [], trackedEvents := a.trackedEvents }
  else
    let prepad := should_use_padding policy debugEnabled p_pad_align
    if prepad then
      let mem := p_memory - DATA_OFFSET
      let old_size := loadU64 h (mem + SIZE_OFFSET)
      if p_bytes = 0 then
        { heap := h
          ret := 0
          systemFrees := [mem]
          trackedEvents := [.realloc old_size p_bytes] }
      else
        let h1 := storeU64 h (mem + SIZE_OFFSET) p_bytes
        let h2 := storeU64 h1 (freshBase + SIZE_OFFSET) p_bytes
        { heap := h2
          ret := freshBase + DATA_OFFSET
          systemFrees := []
          trackedEvents := [.realloc old_size p_bytes] }
    else
      { heap := h
        ret := p_memory
        systemFrees := []
        trackedEvents := [.realloc 0 p_bytes] }

lemma U64M_pos : 0 < U64M := by
  unfold U64M
  positivity

lemma sn_add_lt (a b : Nat) : sn_add a b < U64M :=
  Nat.mod_lt _ U64M_pos

lemma sn_add_exact (a b : Nat) (h : a + b < U64M) : sn_add a b = a + b := by
  unfold sn_add
  exact Nat.mod_eq_of_lt h

lemma sn_sub_exact (a b : Nat) (hb : b ≤ a) (ha : a < U64M) : sn_sub a b = a - b := by
  have hbM : b < U64M := lt_of_le_of_lt hb ha
  unfold sn_sub
  rw [Nat.mod_eq_of_lt hbM]
  have h1 : a + (U64M - b) = U64M + (a - b) := by omega
  rw [h1, Nat.add_mod_left]
  exact Nat.mod_eq_of_lt (by omega)

lemma sn_increment_exact (a : Nat) (h : a + 1 < U64M) : sn_increment a = a + 1 := by
  unfold sn_increment
  exact Nat.mod_eq_of_lt h

lemma sn_exchange_eq_max (a b : Nat) : sn_exchange_if_greater a b = max a b := by
  unfold sn_exchange_if_greater
  rw [Nat.max_def]
  split <;> split <;> omega

lemma sn_exchange_ge (a b : Nat) : a ≤ sn_exchange_if_greater a b := by
  unfold sn_exchange_if_greater
  split <;> omega

/-- Claim C5: `SafeNumeric::exchange_if_greater(v)`, under both the
unsynchronized (`NONE`) and the atomic (`STD_ATOMIC`) policy run
single-threaded, stores `v` exactly when `v` exceeds the current value `c`
and returns the resulting stored value; both the new stored value and the
returned value equal `max c v`, and the stored value equals `v` precisely
when `c ≤ v`. -/
theorem exchange_if_greater_max (c v : Nat) :
    exchangeIfGreaterNone c v = (max c v, max c v)
    ∧ exchangeIfGreaterAtomic c v = (max c v, max c v)
    ∧ ((exchangeIfGreaterNone c v).1 = v ↔ c ≤ v) := by
  rcases Nat.lt_or_ge c v with hlt | hge
  · have hm : max c v = v := Nat.max_eq_right (Nat.le_of_lt hlt)
    simp [exchangeIfGreaterNone, exchangeIfGreaterAtomic, hlt, hm, Nat.le_of_lt hlt]
  · have hm : max c v = c := Nat.max_eq_left hge
    have hnot : ¬ v > c := Nat.not_lt.mpr hge
    refine ⟨?_, ?_, ?_⟩
    · simp [exchangeIfGreaterNone, hnot, hm]
    · simp [exchangeIfGreaterAtomic, hnot, hm]
    · simp only [exchangeIfGreaterNone, hnot, if_false]
      omega

/-- Dispatch one tracking call to the no-op tracker. -/
def stepNoop (s : NoopState) (op : TrackOp) : NoopState :=
  match op with
  | .alloc n => MemoryTracker.track_allocation s n
  | .dealloc n => MemoryTracker.track_deallocation s n
  | .realloc o n => MemoryTracker.track_reallocation s o n

/-- Run a sequence of tracking calls on the no-op tracker. -/
def runNoop (s : NoopState) (ops : List TrackOp) : NoopState :=
  ops.foldl stepNoop s

/-- Claim C8: under the no-op strategy every tracking call is a no-op on the
(empty) tracker state, `get_current_usage`, `get_peak_usage` and
`get_allocation_count` return zero after any history, `get_stats` is the
all-zero snapshot, `dump_allocations` reports nothing and `reset_stats`
changes nothing. -/
theorem noop_tracker_zero (ops : List TrackOp) :
    runNoop () ops = ()
    ∧ MemoryTracker.get_current_usage = 0
    ∧ MemoryTracker.get_peak_usage = 0
    ∧ MemoryTracker.get_allocation_count = 0
    ∧ MemoryTracker.get_stats = MemoryStats.zero
    ∧ MemoryTracker.dump_allocations = []
    ∧ MemoryTracker.reset_stats (runNoop () ops) = runNoop () ops :=
  ⟨rfl, rfl, rfl, rfl, rfl, rfl, rfl⟩

/-- Claim C9: in both the aggregate and the detailed tracker, `get_stats`
fills `total_allocated` with `allocation_count` and `total_freed` with
`deallocation_count` — the two fields hold event counts, not byte totals. -/
theorem get_stats_event_counts (t : TrackerCounters) (d : DetailedTrackerState) :
    (BasicMemoryTracker.get_stats t).total_allocated = t.allocation_count
    ∧ (BasicMemoryTracker.get_stats t).total_freed = t.deallocation_count
    ∧ (DetailedMemoryTracker.get_stats d).total_allocated = d.counters.allocation_count
    ∧ (DetailedMemoryTracker.get_stats d).total_freed = d.counters.deallocation_count :=
  ⟨rfl, rfl, rfl, rfl⟩

/-- Claim C7, counterexample: in the `HighPerformanceConfig` engine
configuration, `free_static` on a null pointer reports no error and passes
the null pointer straight to `std::free` — a system deallocation call is
performed, refuting the claim for this configuration. -/
theorem hp_free_static_null_cex :
    (HighPerformanceManager.free_static 0).nullErrorReported = false
    ∧ (HighPerformanceManager.free_static 0).systemFrees = [0] :=
  ⟨rfl, rfl⟩

/-- Claim C7, amended: for every configuration served by the generic
`MemoryManager` template (every padding policy, debug flag and pad-align
argument), `free_static` on a null pointer reports the null-pointer error,
performs no system deallocation call and issues no tracking call, leaving
the tracking counters unchanged. -/
theorem free_static_null_rejected (policy : MemoryPaddingPolicy) (debugEnabled : Bool)
    (h : Heap) (p_pad_align : Bool) :
    (MemoryManager.free_static policy debugEnabled h 0 p_pad_align).nullErrorReported = true
    ∧ (MemoryManager.free_static policy debugEnabled h 0 p_pad_align).systemFrees = []
    ∧ (MemoryManager.free_static policy debugEnabled h 0 p_pad_align).trackedEvents = [] := by
  refine ⟨?_, ?_, ?_⟩ <;> simp [MemoryManager.free_static]

lemma DATA_OFFSET_eq : DATA_OFFSET = 16 := by decide

lemma SIZE_OFFSET_eq : SIZE_OFFSET = 0 := rfl

lemma loadU64_storeU64_same (h : Heap) (addr v : Nat) :
    loadU64 (storeU64 h addr v) addr = v % U64M := by
  simp [loadU64, storeU64]

/-- Claim C1: for every padded allocation of `s` bytes (under every padding
policy / debug / pad-align combination that enables headers), the engine
writes `s` into the size header `DATA_OFFSET` bytes ahead of the returned
user pointer and reports `track_allocation(s)`; a subsequent padded
`free_static` of the returned pointer reads back exactly `s` and reports
exactly `s` to `track_deallocation`; a subsequent padded `realloc_static`
reads back exactly `s` as the old size, reports
`track_reallocation(s, n)`, rewrites the header of the resized block with
`n`, and a padded free of the new pointer then reports exactly `n`. -/
theorem header_roundtrip (policy : MemoryPaddingPolicy) (debugEnabled p_pad_align : Bool)
    (hpad : should_use_padding policy debugEnabled p_pad_align = true)
    (h : Heap) (base s : Nat) (hs : s < U64M)
    (a : AllocEffect)
    (ha : a = MemoryManager.alloc_static policy debugEnabled h base s p_pad_align) :
    loadU64 a.heap (a.ret - DATA_OFFSET + SIZE_OFFSET) = s
    ∧ a.ret = base + DATA_OFFSET
    ∧ a.trackedEvents = [.alloc s]
    ∧ (MemoryManager.free_static policy debugEnabled a.heap a.ret p_pad_align).trackedEvents
        = [.dealloc s]
    ∧ ∀ n freshBase : Nat, n ≠ 0 → n < U64M →
        ∀ r : ReallocEffect,
          r = MemoryManager.realloc_static policy debugEnabled a.heap a.ret n p_pad_align
                freshBase →
          r.trackedEvents = [.realloc s n]
          ∧ loadU64 r.heap (r.ret - DATA_OFFSET + SIZE_OFFSET) = n
          ∧ (MemoryManager.free_static policy debugEnabled r.heap r.ret p_pad_align).trackedEvents
              = [.dealloc n] := by
  subst ha
  have hsmod : s % U64M = s := Nat.mod_eq_of_lt hs
  refine ⟨?_, ?_, ?_, ?_, ?_⟩
  · simp [MemoryManager.alloc_static, hpad, SIZE_OFFSET_eq, loadU64, storeU64, hsmod]
  · simp [MemoryManager.alloc_static, hpad]
  · simp [MemoryManager.alloc_static, hpad]
  · have hne : ¬ (base + DATA_OFFSET = 0) := by
      rw [DATA_OFFSET_eq]
      omega
    simp [MemoryManager.alloc_static, MemoryManager.free_static, hpad, hne, SIZE_OFFSET_eq,
      loadU64, storeU64, hsmod]
  · intro n freshBase hn hnM r hr
    subst hr
    have hnmod : n % U64M = n := Nat.mod_eq_of_lt hnM
    have hne : ¬ (base + DATA_OFFSET = 0) := by
      rw [DATA_OFFSET_eq]
      omega
    have hne2 : ¬ (freshBase + DATA_OFFSET = 0) := by
      rw [DATA_OFFSET_eq]
      omega
    refine ⟨?_, ?_, ?_⟩
    · simp [MemoryManager.alloc_static, MemoryManager.realloc_static, hpad, hne, hn,
        SIZE_OFFSET_eq, loadU64, storeU64, hsmod]
    · simp [MemoryManager.alloc_static, MemoryManager.realloc_static, hpad, hne, hn,
        SIZE_OFFSET_eq, loadU64, storeU64, hnmod]
    · simp [MemoryManager.alloc_static, MemoryManager.realloc_static,
        MemoryManager.free_static, hpad, hne, hne2, hn, SIZE_OFFSET_eq, loadU64, storeU64,
        hnmod]

/-- Claim C1, witness: padded allocation of 128 bytes under the `ALWAYS`
padding policy from a zero heap at raw base 32; the size recovered and
reported at free time is exactly 128, and a padded realloc to 200 bytes
reads back exactly 128 as the old size. -/
theorem header_roundtrip_witness :
    (MemoryManager.free_static .ALWAYS false
        (MemoryManager.alloc_static .ALWAYS false (fun _ => 0) 32 128 false).heap
        (MemoryManager.alloc_static .ALWAYS false (fun _ => 0) 32 128 false).ret
        false).trackedEvents = [.dealloc 128]
    ∧ (MemoryManager.realloc_static .ALWAYS false
        (MemoryManager.alloc_static .ALWAYS false (fun _ => 0) 32 128 false).heap
        (MemoryManager.alloc_static .ALWAYS false (fun _ => 0) 32 128 false).ret
        200 false 96).trackedEvents = [.realloc 128 200] := by
  have h := header_roundtrip .ALWAYS false false rfl (fun _ => 0) 32 128
    (by norm_num [U64M]) _ rfl
  exact ⟨h.2.2.2.1, (h.2.2.2.2 200 96 (by norm_num) (by norm_num [U64M]) _ rfl).1⟩

/-- Claim C4, counterexample: from the reachable state produced by a single
allocation of `2^64 - 100` bytes, `track_reallocation(64, 256)` does not
increase `current_usage` by 192 — the unsigned 64-bit addition wraps and
`current_usage` drops from `2^64 - 100` to 92. -/
theorem realloc_delta_wrap_cex :
    (BasicMemoryTracker.track_reallocation
        (BasicMemoryTracker.track_allocation initCounters (U64M - 100)) 64 256).current_usage
      ≠ (BasicMemoryTracker.track_allocation initCounters (U64M - 100)).current_usage + 192
    ∧ (BasicMemoryTracker.track_reallocation
        (BasicMemoryTracker.track_allocation initCounters (U64M - 100)) 64 256).current_usage
      < (BasicMemoryTracker.track_allocation initCounters (U64M - 100)).current_usage := by
  constructor
  · decide
  · decide

/-- Claim C4, amended: for the aggregate-counters strategy,
`track_reallocation(old_size, new_size)` — provided the updated counters
stay within the unsigned 64-bit range — increases `current_usage` by
exactly `new_size - old_size` when growing (updating the peak through
`exchange_if_greater`, i.e. to the maximum of the old peak and the new
usage), decreases it by exactly `old_size - new_size` when shrinking,
leaves it unchanged when the sizes are equal, and in every case increments
`reallocation_count` by exactly one while leaving the allocation and
deallocation counters untouched. -/
theorem realloc_delta_exact (t : TrackerCounters) (old_size new_size : Nat)
    (hcur : t.current_usage < U64M)
    (hgrow : new_size > old_size → t.current_usage + (new_size - old_size) < U64M)
    (hshrink : old_size > new_size → old_size - new_size ≤ t.current_usage)
    (hcount : t.reallocation_count + 1 < U64M)
    (t' : TrackerCounters)
    (ht : t' = BasicMemoryTracker.track_reallocation t old_size new_size) :
    (new_size > old_size →
      t'.current_usage = t.current_usage + (new_size - old_size)
      ∧ t'.peak_usage = max t.peak_usage t'.current_usage)
    ∧ (old_size > new_size →
      t'.current_usage = t.current_usage - (old_size - new_size)
      ∧ t'.peak_usage = t.peak_usage)
    ∧ (old_size = new_size →
      t'.current_usage = t.current_usage ∧ t'.peak_usage = t.peak_usage)
    ∧ t'.reallocation_count = t.reallocation_count + 1
    ∧ t'.allocation_count = t.allocation_count
    ∧ t'.deallocation_count = t.deallocation_count := by
  subst ht
  rcases Nat.lt_trichotomy old_size new_size with hlt | heq | hgt
  · have e1 : BasicMemoryTracker.track_reallocation t old_size new_size =
        { t with
          current_usage := sn_add t.current_usage (new_size - old_size)
          peak_usage :=
            sn_exchange_if_greater t.peak_usage (sn_add t.current_usage (new_size - old_size))
          reallocation_count := sn_increment t.reallocation_count } := by
      unfold BasicMemoryTracker.track_reallocation
      rw [if_pos hlt]
    rw [e1]
    refine ⟨?_, ?_, ?_, ?_, ?_, ?_⟩
    · intro _
      exact ⟨sn_add_exact _ _ (hgrow hlt), sn_exchange_eq_max _ _⟩
    · intro hcon
      omega
    · intro hcon
      omega
    · exact sn_increment_exact _ hcount
    · rfl
    · rfl
  · subst heq
    have e2 : BasicMemoryTracker.track_reallocation t old_size old_size =
        { t with reallocation_count := sn_increment t.reallocation_count } := by
      unfold BasicMemoryTracker.track_reallocation
      rw [if_neg (lt_irrefl old_size), if_neg (lt_irrefl old_size)]
    rw [e2]
    refine ⟨?_, ?_, ?_, ?_, ?_, ?_⟩
    · intro hcon
      omega
    · intro hcon
      omega
    · intro _
      exact ⟨rfl, rfl⟩
    · exact sn_increment_exact _ hcount
    · rfl
    · rfl
  · have hng : ¬ old_size < new_size := by omega
    have e3 : BasicMemoryTracker.track_reallocation t old_size new_size =
        { t with
          current_usage := sn_sub t.current_usage (old_size - new_size)
          reallocation_count := sn_increment t.reallocation_count } := by
      unfold BasicMemoryTracker.track_reallocation
      rw [if_neg hng, if_pos hgt]
    rw [e3]
    refine ⟨?_, ?_, ?_, ?_, ?_, ?_⟩
    · intro hcon
      omega
    · intro _
      exact ⟨sn_sub_exact _ _ (hshrink hgt) hcur, rfl⟩
    · intro hcon
      omega
    · exact sn_increment_exact _ hcount
    · rfl
    · rfl

/-- Claim C4, witness: from the state after one allocation of 64 bytes,
growing the allocation from 64 to 256 bytes raises `current_usage` from 64
to 256 (an increase of exactly 192) and `reallocation_count` from 0 to 1. -/
theorem realloc_delta_exact_witness :
    (BasicMemoryTracker.track_reallocation
        (BasicMemoryTracker.track_allocation initCounters 64) 64 256).current_usage
      = (BasicMemoryTracker.track_allocation initCounters 64).current_usage + 192
    ∧ (BasicMemoryTracker.track_reallocation
        (BasicMemoryTracker.track_allocation initCounters 64) 64 256).reallocation_count
      = (BasicMemoryTracker.track_allocation initCounters 64).reallocation_count + 1 := by
  have h := realloc_delta_exact (BasicMemoryTracker.track_allocation initCounters 64) 64 256
    (by decide) (fun _ => by decide) (fun hcon => by omega) (by decide) _ rfl
  exact ⟨(h.1 (by norm_num)).1, h.2.2.2.1⟩

lemma sum_erase_of_mem (a : Nat) (l : List Nat) (h : a ∈ l) :
    a ≤ l.sum ∧ (l.erase a).sum = l.sum - a := by
  have hp := (List.perm_cons_erase h).sum_eq
  simp only [List.sum_cons] at hp
  omega

lemma max_absorb_left (a b y : Nat) (h : b ≤ a) : max a (max b y) = max a y := by
  rw [← Nat.max_assoc, Nat.max_eq_left h]

lemma peak_merge_grow (p c c' y : Nat) (h1 : c ≤ c') (h2 : c' ≤ y) :
    max (max p c') y = max p (max c y) := by
  rw [Nat.max_assoc, Nat.max_eq_right h2, Nat.max_eq_right (le_trans h1 h2)]

lemma trace_head_le (t : TrackerCounters) (ops : List TrackOp) :
    t.current_usage ≤ (currentTrace t ops).foldr max 0 := by
  cases ops with
  | nil => simp [currentTrace]
  | cons op rest =>
      simp only [currentTrace, List.foldr_cons]
      exact Nat.le_max_left _ _

/-- Invariant tying the aggregate counters to the ghost multiset `out` of
outstanding allocation sizes: the current usage is exactly the outstanding
total, that total fits in 64 bits, and the peak dominates the current
usage and also fits in 64 bits. -/
def TrackInv (out : List Nat) (t : TrackerCounters) : Prop :=
  t.current_usage = out.sum ∧ out.sum < U64M
    ∧ t.current_usage ≤ t.peak_usage ∧ t.peak_usage < U64M

lemma runBasic_main (ops : List TrackOp) : ∀ (out : List Nat) (t : TrackerCounters),
    TrackInv out t → boundedPaired out ops = true →
    TrackInv (outAfter out ops) (runBasic t ops)
    ∧ (runBasic t ops).peak_usage = max t.peak_usage ((currentTrace t ops).foldr max 0) := by
  induction ops with
  | nil =>
    intro out t hinv _
    obtain ⟨h1, h2, h3, h4⟩ := hinv
    refine ⟨⟨h1, h2, h3, h4⟩, ?_⟩
    simp only [runBasic, List.foldl_nil, currentTrace, List.foldr_cons, List.foldr_nil,
      Nat.max_zero]
    exact (Nat.max_eq_left h3).symm
  | cons op rest ih =>
    intro out t hinv hbp
    obtain ⟨hc, hsumM, hcp, hpM⟩ := hinv
    cases op with
    | alloc s =>
      simp only [boundedPaired, Bool.and_eq_true, decide_eq_true_eq] at hbp
      obtain ⟨hbound, hrest⟩ := hbp
      have hadd : sn_add t.current_usage s = out.sum + s := by
        rw [hc]
        exact sn_add_exact _ _ hbound
      have hinv' : TrackInv (s :: out) (stepBasic t (.alloc s)) := by
        refine ⟨?_, ?_, ?_, ?_⟩
        · show sn_add t.current_usage s = (s :: out).sum
          rw [hadd]
          simp only [List.sum_cons]
          omega
        · simp only [List.sum_cons]
          omega
        · show sn_add t.current_usage s
            ≤ sn_exchange_if_greater t.peak_usage (sn_add t.current_usage s)
          rw [sn_exchange_eq_max]
          exact Nat.le_max_right _ _
        · show sn_exchange_if_greater t.peak_usage (sn_add t.current_usage s) < U64M
          rw [sn_exchange_eq_max]
          refine Nat.max_lt.mpr ⟨hpM, ?_⟩
          rw [hadd]
          omega
      obtain ⟨ihInv, ihPeak⟩ := ih (s :: out) (stepBasic t (.alloc s)) hinv' hrest
      refine ⟨ihInv, ?_⟩
      have hcval : (stepBasic t (.alloc s)).current_usage = out.sum + s := hadd
      have hY := trace_head_le (stepBasic t (.alloc s)) rest
      rw [hcval] at hY
      have hpk : (stepBasic t (.alloc s)).peak_usage
          = max t.peak_usage (out.sum + s) := by
        show sn_exchange_if_greater t.peak_usage (sn_add t.current_usage s) = _
        rw [sn_exchange_eq_max, hadd]
      show (runBasic (stepBasic t (.alloc s)) rest).peak_usage
          = max t.peak_usage
              (max t.current_usage ((currentTrace (stepBasic t (.alloc s)) rest).foldr max 0))
      rw [ihPeak, hpk]
      exact peak_merge_grow _ _ _ _ (by omega) hY
    | dealloc s =>
      simp only [boundedPaired, Bool.and_eq_true, decide_eq_true_eq] at hbp
      obtain ⟨hmem, hrest⟩ := hbp
      obtain ⟨hsle, herase⟩ := sum_erase_of_mem s out hmem
      have hsub : sn_sub t.current_usage s = (out.erase s).sum := by
        rw [hc, sn_sub_exact _ _ hsle hsumM]
        omega
      have hinv' : TrackInv (out.erase s) (stepBasic t (.dealloc s)) := by
        refine ⟨hsub, by omega, ?_, hpM⟩
        show sn_sub t.current_usage s ≤ t.peak_usage
        rw [hsub]
        omega
      obtain ⟨ihInv, ihPeak⟩ := ih (out.erase s) (stepBasic t (.dealloc s)) hinv' hrest
      refine ⟨ihInv, ?_⟩
      show (runBasic (stepBasic t (.dealloc s)) rest).peak_usage
          = max t.peak_usage
              (max t.current_usage ((currentTrace (stepBasic t (.dealloc s)) rest).foldr max 0))
      rw [ihPeak]
      exact (max_absorb_left _ _ _ hcp).symm
    | realloc o n =>
      simp only [boundedPaired, Bool.and_eq_true, decide_eq_true_eq] at hbp
      obtain ⟨⟨hmem, hbound⟩, hrest⟩ := hbp
      obtain ⟨hole, herase⟩ := sum_erase_of_mem o out hmem
      rcases Nat.lt_trichotomy o n with hlt | heq | hgt
      · have e1 : stepBasic t (.realloc o n) =
            { t with
              current_usage := sn_add t.current_usage (n - o)
              peak_usage :=
                sn_exchange_if_greater t.peak_usage (sn_add t.current_usage (n - o))
              reallocation_count := sn_increment t.reallocation_count } := by
          show BasicMemoryTracker.track_reallocation t o n = _
          unfold BasicMemoryTracker.track_reallocation
          rw [if_pos hlt]
        have hadd : sn_add t.current_usage (n - o) = (n :: out.erase o).sum := by
          rw [hc, sn_add_exact _ _ (by omega)]
          simp only [List.sum_cons]
          omega
        have hinv' : TrackInv (n :: out.erase o) (stepBasic t (.realloc o n)) := by
          rw [e1]
          refine ⟨hadd, ?_, ?_, ?_⟩
          · simp only [List.sum_cons]
            omega
          · show sn_add t.current_usage (n - o)
              ≤ sn_exchange_if_greater t.peak_usage (sn_add t.current_usage (n - o))
            rw [sn_exchange_eq_max]
            exact Nat.le_max_right _ _
          · show sn_exchange_if_greater t.peak_usage (sn_add t.current_usage (n - o)) < U64M
            rw [sn_exchange_eq_max]
            refine Nat.max_lt.mpr ⟨hpM, ?_⟩
            rw [hadd]
            simp only [List.sum_cons]
            omega
        obtain ⟨ihInv, ihPeak⟩ := ih (n :: out.erase o) (stepBasic t (.realloc o n)) hinv' hrest
        refine ⟨ihInv, ?_⟩
        have hcval : (stepBasic t (.realloc o n)).current_usage = (n :: out.erase o).sum := by
          rw [e1]
          exact hadd
        have hY := trace_head_le (stepBasic t (.realloc o n)) rest
        rw [hcval] at hY
        have hpk : (stepBasic t (.realloc o n)).peak_usage
            = max t.peak_usage ((n :: out.erase o).sum) := by
          rw [e1]
          show sn_exchange_if_greater t.peak_usage (sn_add t.current_usage (n - o)) = _
          rw [sn_exchange_eq_max, hadd]
        show (runBasic (stepBasic t (.realloc o n)) rest).peak_usage
            = max t.peak_usage
                (max t.current_usage
                  ((currentTrace (stepBasic t (.realloc o n)) rest).foldr max 0))
        rw [ihPeak, hpk]
        refine peak_merge_grow _ _ _ _ ?_ hY
        simp only [List.sum_cons]
        omega
      · subst heq
        have e2 : stepBasic t (.realloc o o) =
            { t with reallocation_count := sn_increment t.reallocation_count } := by
          show BasicMemoryTracker.track_reallocation t o o = _
          unfold BasicMemoryTracker.track_reallocation
          rw [if_neg (lt_irrefl o), if_neg (lt_irrefl o)]
        have hinv' : TrackInv (o :: out.erase o) (stepBasic t (.realloc o o)) := by
          rw [e2]
          refine ⟨?_, ?_, hcp, hpM⟩
          · show t.current_usage = (o :: out.erase o).sum
            simp only [List.sum_cons]
            omega
          · simp only [List.sum_cons]
            omega
        obtain ⟨ihInv, ihPeak⟩ := ih (o :: out.erase o) (stepBasic t (.realloc o o)) hinv' hrest
        refine ⟨ihInv, ?_⟩
        show (runBasic (stepBasic t (.realloc o o)) rest).peak_usage
            = max t.peak_usage
                (max t.current_usage
                  ((currentTrace (stepBasic t (.realloc o o)) rest).foldr max 0))
        rw [ihPeak, e2]
        exact (max_absorb_left _ _ _ hcp).symm
      · have hno : ¬ o < n := by omega
        have e3 : stepBasic t (.realloc o n) =
            { t with
              current_usage := sn_sub t.current_usage (o - n)
              reallocation_count := sn_increment t.reallocation_count } := by
          show BasicMemoryTracker.track_reallocation t o n = _
          unfold BasicMemoryTracker.track_reallocation
          rw [if_neg hno, if_pos hgt]
        have hsub : sn_sub t.current_usage (o - n) = (n :: out.erase o).sum := by
          rw [hc, sn_sub_exact _ _ (by omega) hsumM]
          simp only [List.sum_cons]
          omega
        have hinv' : TrackInv (n :: out.erase o) (stepBasic t (.realloc o n)) := by
          rw [e3]
          refine ⟨hsub, ?_, ?_, hpM⟩
          · simp only [List.sum_cons]
            omega
          · show sn_sub t.current_usage (o - n) ≤ t.peak_usage
            rw [hsub]
            simp only [List.sum_cons]
            omega
        obtain ⟨ihInv, ihPeak⟩ := ih (n :: out.erase o) (stepBasic t (.realloc o n)) hinv' hrest
        refine ⟨ihInv, ?_⟩
        show (runBasic (stepBasic t (.realloc o n)) rest).peak_usage
            = max t.peak_usage
                (max t.current_usage
                  ((currentTrace (stepBasic t (.realloc o n)) rest).foldr max 0))
        rw [ihPeak, e3]
        exact (max_absorb_left _ _ _ hcp).symm

lemma stepBasic_peak_mono (t : TrackerCounters) (op : TrackOp) :
    t.peak_usage ≤ (stepBasic t op).peak_usage := by
  cases op with
  | alloc s => exact sn_exchange_ge _ _
  | dealloc s => exact Nat.le_refl _
  | realloc o n =>
    show t.peak_usage ≤ (BasicMemoryTracker.track_reallocation t o n).peak_usage
    unfold BasicMemoryTracker.track_reallocation
    split
    · exact sn_exchange_ge _ _
    · split
      · exact Nat.le_refl _
      · exact Nat.le_refl _

lemma runBasic_peak_mono (ops : List TrackOp) : ∀ t : TrackerCounters,
    t.peak_usage ≤ (runBasic t ops).peak_usage := by
  induction ops with
  | nil => intro t; exact Nat.le_refl _
  | cons op rest ih =>
    intro t
    exact le_trans (stepBasic_peak_mono t op) (ih (stepBasic t op))

lemma runBasic_append (t : TrackerCounters) (xs ys : List TrackOp) :
    runBasic t (xs ++ ys) = runBasic (runBasic t xs) ys := by
  simp [runBasic]

lemma boundedPaired_append (xs ys : List TrackOp) : ∀ out : List Nat,
    boundedPaired out (xs ++ ys) = true →
    boundedPaired out xs = true ∧ boundedPaired (outAfter out xs) ys = true := by
  induction xs with
  | nil => intro out h; exact ⟨rfl, h⟩
  | cons op rest ih =>
    intro out h
    cases op with
    | alloc s =>
      simp only [List.cons_append, boundedPaired, Bool.and_eq_true] at h ⊢
      obtain ⟨h1, h2⟩ := h
      obtain ⟨h3, h4⟩ := ih (s :: out) h2
      exact ⟨⟨h1, h3⟩, h4⟩
    | dealloc s =>
      simp only [List.cons_append, boundedPaired, Bool.and_eq_true] at h ⊢
      obtain ⟨h1, h2⟩ := h
      obtain ⟨h3, h4⟩ := ih (out.erase s) h2
      exact ⟨⟨h1, h3⟩, h4⟩
    | realloc o n =>
      simp only [List.cons_append, boundedPaired, Bool.and_eq_true] at h ⊢
      obtain ⟨h1, h2⟩ := h
      obtain ⟨h3, h4⟩ := ih (n :: out.erase o) h2
      exact ⟨⟨h1, h3⟩, h4⟩

lemma runDetailed_counters (ops : List TrackOp) : ∀ d : DetailedTrackerState,
    (runDetailed d ops).counters = runBasic d.counters ops := by
  induction ops with
  | nil => intro d; rfl
  | cons op rest ih =>
    intro d
    have hstep : (stepDetailed d op).counters = stepBasic d.counters op := by
      cases op with
      | alloc s => rfl
      | dealloc s => rfl
      | realloc o n =>
        show (DetailedMemoryTracker.track_reallocation d o n).counters
            = BasicMemoryTracker.track_reallocation d.counters o n
        unfold DetailedMemoryTracker.track_reallocation BasicMemoryTracker.track_reallocation
        rcases Nat.lt_trichotomy o n with hlt | heq | hgt
        · rw [if_pos hlt, if_pos hlt]
        · subst heq
          rw [if_neg (lt_irrefl o), if_neg (lt_irrefl o), if_neg (lt_irrefl o),
            if_neg (lt_irrefl o)]
        · have hno : ¬ o < n := by omega
          rw [if_neg hno, if_neg hno, if_pos hgt, if_pos hgt]
    show (runDetailed (stepDetailed d op) rest).counters = runBasic (stepBasic d.counters op) rest
    rw [ih (stepDetailed d op), hstep]

/-- Claim C2, counterexample: the correctly paired, reset-free call sequence
`track_allocation(5); track_allocation(2^64 - 5); track_deallocation(5)` on
the aggregate tracker wraps the unsigned 64-bit current-usage counter and
ends with `current_usage = 2^64 - 5 > peak_usage = 5`, violating both
`peak_usage ≥ current_usage` and `peak_usage = max observed current_usage`. -/
theorem usage_peak_wrap_cex :
    pairedFrom [] [TrackOp.alloc 5, TrackOp.alloc (U64M - 5), TrackOp.dealloc 5] = true
    ∧ ¬ ((runBasic initCounters
            [TrackOp.alloc 5, TrackOp.alloc (U64M - 5), TrackOp.dealloc 5]).current_usage
          ≤ (runBasic initCounters
            [TrackOp.alloc 5, TrackOp.alloc (U64M - 5), TrackOp.dealloc 5]).peak_usage)
    ∧ (runBasic initCounters
          [TrackOp.alloc 5, TrackOp.alloc (U64M - 5), TrackOp.dealloc 5]).peak_usage
        ≠ (currentTrace initCounters
            [TrackOp.alloc 5, TrackOp.alloc (U64M - 5), TrackOp.dealloc 5]).foldr max 0 := by
  refine ⟨by decide, by decide, by decide⟩

/-- Claim C2, amended: for every correctly paired, reset-free sequence of
`track_allocation` / `track_deallocation` / `track_reallocation` calls in
which, additionally, the running total of outstanding sizes stays below
`2^64` (so no 64-bit counter wraps), both the aggregate and the detailed
tracker satisfy: at every quiescent point `peak_usage ≥ current_usage`,
`peak_usage` is non-decreasing along the sequence, and the final
`peak_usage` equals the maximum value of `current_usage` ever observed.
The detailed tracker's counters coincide with the aggregate tracker's at
every prefix, so all three properties hold for it as well. -/
theorem usage_peak_invariant (ops : List TrackOp)
    (hv : boundedPaired [] ops = true) :
    (∀ pre suf, ops = pre ++ suf →
        (runBasic initCounters pre).current_usage ≤ (runBasic initCounters pre).peak_usage
        ∧ (runBasic initCounters pre).peak_usage ≤ (runBasic initCounters ops).peak_usage
        ∧ (runDetailed initDetailed pre).counters = runBasic initCounters pre)
    ∧ (runBasic initCounters ops).peak_usage = (currentTrace initCounters ops).foldr max 0 := by
  have hinv0 : TrackInv [] initCounters := ⟨rfl, U64M_pos, Nat.le_refl 0, U64M_pos⟩
  constructor
  · intro pre suf hsplit
    subst hsplit
    obtain ⟨hpre, _⟩ := boundedPaired_append pre suf [] hv
    obtain ⟨⟨_, _, hle, _⟩, _⟩ := runBasic_main pre [] initCounters hinv0 hpre
    refine ⟨hle, ?_, ?_⟩
    · rw [runBasic_append]
      exact runBasic_peak_mono suf _
    · exact runDetailed_counters pre initDetailed
  · obtain ⟨_, hpeak⟩ := runBasic_main ops [] initCounters hinv0 hv
    rw [hpeak]
    exact Nat.max_eq_right (Nat.zero_le _)

/-- Claim C2, witness: a concrete correctly paired bounded sequence —
alloc 100, alloc 50, dealloc 100, realloc 50 → 80 — satisfies the
no-overflow side condition, and its final peak equals the maximum observed
current usage (both are 150). -/
theorem usage_peak_invariant_witness :
    boundedPaired []
        [TrackOp.alloc 100, TrackOp.alloc 50, TrackOp.dealloc 100, TrackOp.realloc 50 80]
      = true
    ∧ (runBasic initCounters
        [TrackOp.alloc 100, TrackOp.alloc 50, TrackOp.dealloc 100,
          TrackOp.realloc 50 80]).peak_usage
      = (currentTrace initCounters
          [TrackOp.alloc 100, TrackOp.alloc 50, TrackOp.dealloc 100,
            TrackOp.realloc 50 80]).foldr max 0 :=
  ⟨by decide, (usage_peak_invariant _ (by decide)).2⟩

lemma runBasic_allocs (sizes : List Nat) : ∀ t : TrackerCounters,
    t.allocation_count < U64M → t.current_usage < U64M →
    (runBasic t (sizes.map TrackOp.alloc)).allocation_count
        = (t.allocation_count + sizes.length) % U64M
    ∧ (runBasic t (sizes.map TrackOp.alloc)).deallocation_count = t.deallocation_count
    ∧ (runBasic t (sizes.map TrackOp.alloc)).current_usage
        = (t.current_usage + sizes.sum) % U64M := by
  induction sizes with
  | nil =>
    intro t ha hc
    refine ⟨?_, rfl, ?_⟩
    · simpa using (Nat.mod_eq_of_lt ha).symm
    · simpa using (Nat.mod_eq_of_lt hc).symm
  | cons s rest ih =>
    intro t ha hc
    have ha' : (stepBasic t (.alloc s)).allocation_count < U64M := Nat.mod_lt _ U64M_pos
    have hc' : (stepBasic t (.alloc s)).current_usage < U64M := Nat.mod_lt _ U64M_pos
    obtain ⟨h1, h2, h3⟩ := ih (stepBasic t (.alloc s)) ha' hc'
    have hsa : (stepBasic t (.alloc s)).allocation_count = (t.allocation_count + 1) % U64M := rfl
    have hsc : (stepBasic t (.alloc s)).current_usage = (t.current_usage + s) % U64M := rfl
    refine ⟨?_, ?_, ?_⟩
    · show (runBasic (stepBasic t (.alloc s)) (rest.map TrackOp.alloc)).allocation_count = _
      rw [h1, hsa, Nat.mod_add_mod]
      simp only [List.length_cons]
      congr 1
      omega
    · exact h2
    · show (runBasic (stepBasic t (.alloc s)) (rest.map TrackOp.alloc)).current_usage = _
      rw [h3, hsc, Nat.mod_add_mod]
      simp only [List.sum_cons]
      congr 1
      omega

lemma runBasic_deallocs (frees : List Nat) : ∀ t : TrackerCounters,
    t.deallocation_count < U64M → t.current_usage < U64M →
    (runBasic t (frees.map TrackOp.dealloc)).deallocation_count
        = (t.deallocation_count + frees.length) % U64M
    ∧ (runBasic t (frees.map TrackOp.dealloc)).allocation_count = t.allocation_count
    ∧ (runBasic t (frees.map TrackOp.dealloc)).current_usage
        = (t.current_usage + (frees.map (fun x => U64M - x % U64M)).sum) % U64M := by
  induction frees with
  | nil =>
    intro t hd hc
    refine ⟨?_, rfl, ?_⟩
    · simpa using (Nat.mod_eq_of_lt hd).symm
    · simpa using (Nat.mod_eq_of_lt hc).symm
  | cons s rest ih =>
    intro t hd hc
    have hd' : (stepBasic t (.dealloc s)).deallocation_count < U64M := Nat.mod_lt _ U64M_pos
    have hc' : (stepBasic t (.dealloc s)).current_usage < U64M := Nat.mod_lt _ U64M_pos
    obtain ⟨h1, h2, h3⟩ := ih (stepBasic t (.dealloc s)) hd' hc'
    have hsd : (stepBasic t (.dealloc s)).deallocation_count
        = (t.deallocation_count + 1) % U64M := rfl
    have hsc : (stepBasic t (.dealloc s)).current_usage
        = (t.current_usage + (U64M - s % U64M)) % U64M := rfl
    refine ⟨?_, ?_, ?_⟩
    · show (runBasic (stepBasic t (.dealloc s)) (rest.map TrackOp.dealloc)).deallocation_count = _
      rw [h1, hsd, Nat.mod_add_mod]
      simp only [List.length_cons]
      congr 1
      omega
    · exact h2
    · show (runBasic (stepBasic t (.dealloc s)) (rest.map TrackOp.dealloc)).current_usage = _
      rw [h3, hsc, Nat.mod_add_mod]
      simp only [List.map_cons, List.sum_cons]
      congr 1
      omega

lemma sum_with_compl (l : List Nat) :
    (l.sum + (l.map (fun x => U64M - x % U64M)).sum) % U64M = 0 := by
  induction l with
  | nil => simp
  | cons s rest ih =>
    simp only [List.sum_cons, List.map_cons]
    have hterm : (s + (U64M - s % U64M)) % U64M = 0 := by
      have hdm := Nat.div_add_mod s U64M
      have hmod : s % U64M < U64M := Nat.mod_lt _ U64M_pos
      have he : s + (U64M - s % U64M) = U64M * (1 + s / U64M) := by
        have h3 : U64M * (1 + s / U64M) = U64M + U64M * (s / U64M) := by ring
        omega
      rw [he]
      exact Nat.mul_mod_right _ _
    have hre : s + rest.sum
          + ((U64M - s % U64M) + (rest.map (fun x => U64M - x % U64M)).sum)
        = (s + (U64M - s % U64M))
          + (rest.sum + (rest.map (fun x => U64M - x % U64M)).sum) := by
      ring
    rw [hre, Nat.add_mod, hterm, ih]
    simp

/-- Claim C3, amended: performing the tracking calls of `N` allocations of
sizes `s1..sN` followed by frees of all of them (in any order; a padded
engine free reports exactly the allocated size back, see the header
round-trip theorem) leaves `current_usage = 0` for every `N`, with the
detailed tracker's counters agreeing with the aggregate tracker's; and
provided `N < 2^64` (so the 64-bit event counters do not wrap),
`deallocation_count = allocation_count = N`. -/
theorem counter_roundtrip (sizes frees : List Nat) (hperm : frees.Perm sizes) :
    (runBasic initCounters
        (sizes.map TrackOp.alloc ++ frees.map TrackOp.dealloc)).current_usage = 0
    ∧ (runDetailed initDetailed
          (sizes.map TrackOp.alloc ++ frees.map TrackOp.dealloc)).counters
        = runBasic initCounters (sizes.map TrackOp.alloc ++ frees.map TrackOp.dealloc)
    ∧ (sizes.length < U64M →
        (runBasic initCounters
            (sizes.map TrackOp.alloc ++ frees.map TrackOp.dealloc)).allocation_count
          = sizes.length
        ∧ (runBasic initCounters
            (sizes.map TrackOp.alloc ++ frees.map TrackOp.dealloc)).deallocation_count
          = sizes.length) := by
  obtain ⟨ha1, ha2, ha3⟩ := runBasic_allocs sizes initCounters U64M_pos U64M_pos
  have ht1d : (runBasic initCounters (sizes.map TrackOp.alloc)).deallocation_count < U64M := by
    rw [ha2]
    exact U64M_pos
  have ht1c : (runBasic initCounters (sizes.map TrackOp.alloc)).current_usage < U64M := by
    rw [ha3]
    exact Nat.mod_lt _ U64M_pos
  obtain ⟨hd1, hd2, hd3⟩ :=
    runBasic_deallocs frees (runBasic initCounters (sizes.map TrackOp.alloc)) ht1d ht1c
  have h0a : initCounters.allocation_count = 0 := rfl
  have h0d : initCounters.deallocation_count = 0 := rfl
  have h0c : initCounters.current_usage = 0 := rfl
  refine ⟨?_, ?_, ?_⟩
  · rw [runBasic_append, hd3, ha3, h0c, Nat.zero_add, Nat.mod_add_mod]
    have hmap : (frees.map (fun x => U64M - x % U64M)).sum
        = (sizes.map (fun x => U64M - x % U64M)).sum := (hperm.map _).sum_eq
    rw [hmap]
    exact sum_with_compl sizes
  · exact runDetailed_counters _ initDetailed
  · intro hlen
    constructor
    · rw [runBasic_append, hd2, ha1, h0a, Nat.zero_add]
      exact Nat.mod_eq_of_lt hlen
    · rw [runBasic_append, hd1, ha2, h0d, Nat.zero_add, hperm.length_eq]
      exact Nat.mod_eq_of_lt hlen

/-- Claim C3, witness: three allocations of 10, 20 and 30 bytes followed by
frees of all three (in a different order) end with `current_usage = 0` and
`allocation_count = deallocation_count = 3`. -/
theorem counter_roundtrip_witness :
    (runBasic initCounters
        ([10, 20, 30].map TrackOp.alloc ++ [20, 10, 30].map TrackOp.dealloc)).current_usage = 0
    ∧ (runBasic initCounters
        ([10, 20, 30].map TrackOp.alloc ++ [20, 10, 30].map TrackOp.dealloc)).allocation_count
      = 3
    ∧ (runBasic initCounters
        ([10, 20, 30].map TrackOp.alloc ++ [20, 10, 30].map TrackOp.dealloc)).deallocation_count
      = 3 := by
  have h := counter_roundtrip [10, 20, 30] [20, 10, 30] (by decide)
  have hlen : ([10, 20, 30] : List Nat).length < U64M := by
    simp only [List.length_cons, List.length_nil]
    exact by decide
  refine ⟨h.1, ?_, ?_⟩
  · simpa using (h.2.2 hlen).1
  · simpa using (h.2.2 hlen).2

/-- Claim C3, counterexample: the claim as stated quantifies over every `N`;
at `N = 2^64` (sizes all zero) the 64-bit `allocation_count` wraps to 0 and
does not equal `N`, so the unqualified claim is false. -/
theorem counter_roundtrip_unbounded_cex :
    ¬ (∀ (sizes frees : List Nat), frees.Perm sizes →
        (runBasic initCounters
            (sizes.map TrackOp.alloc ++ frees.map TrackOp.dealloc)).current_usage = 0
        ∧ (runBasic initCounters
            (sizes.map TrackOp.alloc ++ frees.map TrackOp.dealloc)).deallocation_count
          = sizes.length
        ∧ (runBasic initCounters
            (sizes.map TrackOp.alloc ++ frees.map TrackOp.dealloc)).allocation_count
          = sizes.length) := by
  intro hclaim
  have h := (hclaim (List.replicate U64M 0) (List.replicate U64M 0) (List.Perm.refl _)).2.2
  rw [runBasic_append] at h
  obtain ⟨ha1, ha2, ha3⟩ := runBasic_allocs (List.replicate U64M 0) initCounters U64M_pos U64M_pos
  have ht1d : (runBasic initCounters
      ((List.replicate U64M 0).map TrackOp.alloc)).deallocation_count < U64M := by
    rw [ha2]
    exact U64M_pos
  have ht1c : (runBasic initCounters
      ((List.replicate U64M 0).map TrackOp.alloc)).current_usage < U64M := by
    rw [ha3]
    exact Nat.mod_lt _ U64M_pos
  obtain ⟨hd1, hd2, hd3⟩ := runBasic_deallocs (List.replicate U64M 0)
    (runBasic initCounters ((List.replicate U64M 0).map TrackOp.alloc)) ht1d ht1c
  rw [hd2, ha1] at h
  have h0a : initCounters.allocation_count = 0 := rfl
  rw [h0a, Nat.zero_add, List.length_replicate, Nat.mod_self] at h
  have := U64M_pos
  omega

lemma find_mapErase_ne (l : AllocRegistry) (p q : Nat) (h : q ≠ p) :
    mapFind (mapErase l p) q = mapFind l q := by
  induction l with
  | nil => rfl
  | cons e rest ih =>
    obtain ⟨k, v⟩ := e
    by_cases hk : k = p
    · subst hk
      have hkq : ¬ (k = q) := fun hh => h hh.symm
      simp [mapErase, mapFind, hkq]
    · simp only [mapErase, if_neg hk]
      show mapFind ((k, v) :: mapErase rest p) q = mapFind ((k, v) :: rest) q
      by_cases hq : k = q
      · simp [mapFind, hq]
      · simp [mapFind, hq, ih]

/-- Claim C10, counterexample: mixing the size-based and the pointer-based
deallocation paths reaches a state where pointer 7 is registered with
stored size 100 while `current_usage` is 0; `track_deallocation_with_ptr(7)`
then wraps the unsigned 64-bit subtraction and *raises* `current_usage` to
`2^64 - 100` instead of decrementing it by the stored size. -/
theorem detailed_dealloc_wrap_cex :
    Option.map AllocationInfo.size
        (mapFind (DetailedMemoryTracker.track_deallocation
            (DetailedMemoryTracker.track_allocation_with_ptr initDetailed 7 100
              "main.cpp" 42 "main") 100).allocations 7)
      = some 100
    ∧ (DetailedMemoryTracker.track_deallocation
          (DetailedMemoryTracker.track_allocation_with_ptr initDetailed 7 100
            "main.cpp" 42 "main") 100).counters.current_usage = 0
    ∧ (DetailedMemoryTracker.track_deallocation_with_ptr
          (DetailedMemoryTracker.track_deallocation
            (DetailedMemoryTracker.track_allocation_with_ptr initDetailed 7 100
              "main.cpp" 42 "main") 100)
          7).counters.current_usage = U64M - 100
    ∧ (DetailedMemoryTracker.track_deallocation_with_ptr
          (DetailedMemoryTracker.track_deallocation
            (DetailedMemoryTracker.track_allocation_with_ptr initDetailed 7 100
              "main.cpp" 42 "main") 100)
          7).counters.current_usage
        > (DetailedMemoryTracker.track_deallocation
            (DetailedMemoryTracker.track_allocation_with_ptr initDetailed 7 100
              "main.cpp" 42 "main") 100).counters.current_usage := by
  refine ⟨?_, ?_, ?_, ?_⟩ <;> decide

/-- Claim C10, amended: in the detailed tracker, provided the counters do
not wrap (deallocation counter not saturated; for a registered pointer the
stored size does not exceed `current_usage`): if `p` has a registered
record, `track_deallocation_with_ptr(p)` decrements `current_usage` by
exactly the stored record size, removes exactly that record (other
pointers' lookups are unchanged), and increments `deallocation_count` by
one, leaving the other counters untouched; if `p` has no record, it still
increments `deallocation_count` by one and leaves `current_usage` and the
registry entirely unchanged. -/
theorem detailed_dealloc_with_ptr_spec (d : DetailedTrackerState) (ptr : Nat)
    (hcount : d.counters.deallocation_count + 1 < U64M)
    (hcur : d.counters.current_usage < U64M)
    (d' : DetailedTrackerState)
    (hd : d' = DetailedMemoryTracker.track_deallocation_with_ptr d ptr) :
    (∀ info, mapFind d.allocations ptr = some info →
        info.size ≤ d.counters.current_usage →
        d'.counters.current_usage = d.counters.current_usage - info.size
        ∧ d'.allocations = mapErase d.allocations ptr
        ∧ (∀ q, q ≠ ptr → mapFind d'.allocations q = mapFind d.allocations q)
        ∧ d'.counters.deallocation_count = d.counters.deallocation_count + 1
        ∧ d'.counters.peak_usage = d.counters.peak_usage
        ∧ d'.counters.allocation_count = d.counters.allocation_count
        ∧ d'.counters.reallocation_count = d.counters.reallocation_count
        ∧ d'.next_allocation_id = d.next_allocation_id)
    ∧ (mapFind d.allocations ptr = none →
        d'.counters.current_usage = d.counters.current_usage
        ∧ d'.allocations = d.allocations
        ∧ d'.counters.deallocation_count = d.counters.deallocation_count + 1
        ∧ d'.counters.peak_usage = d.counters.peak_usage
        ∧ d'.counters.allocation_count = d.counters.allocation_count
        ∧ d'.counters.reallocation_count = d.counters.reallocation_count) := by
  subst hd
  constructor
  · intro info hfind hsize
    have he : DetailedMemoryTracker.track_deallocation_with_ptr d ptr =
        { d with
          counters := { d.counters with
            current_usage := sn_sub d.counters.current_usage info.size
            deallocation_count := sn_increment d.counters.deallocation_count }
          allocations := mapErase d.allocations ptr } := by
      unfold DetailedMemoryTracker.track_deallocation_with_ptr
      rw [hfind]
    rw [he]
    refine ⟨sn_sub_exact _ _ hsize hcur, rfl, ?_, sn_increment_exact _ hcount, rfl, rfl, rfl,
      rfl⟩
    intro q hq
    exact find_mapErase_ne d.allocations ptr q hq
  · intro hfind
    have he : DetailedMemoryTracker.track_deallocation_with_ptr d ptr =
        { d with
          counters := { d.counters with
            deallocation_count := sn_increment d.counters.deallocation_count } } := by
      unfold DetailedMemoryTracker.track_deallocation_with_ptr
      rw [hfind]
    rw [he]
    exact ⟨rfl, rfl, sn_increment_exact _ hcount, rfl, rfl, rfl⟩

/-- Claim C10, witness: after registering pointer 7 with size 100,
`track_deallocation_with_ptr(7)` brings `current_usage` back to 0 and
`deallocation_count` to 1. -/
theorem detailed_dealloc_with_ptr_witness :
    (DetailedMemoryTracker.track_deallocation_with_ptr
        (DetailedMemoryTracker.track_allocation_with_ptr initDetailed 7 100 "a.cpp" 3 "g")
        7).counters.current_usage = 0
    ∧ (DetailedMemoryTracker.track_deallocation_with_ptr
        (DetailedMemoryTracker.track_allocation_with_ptr initDetailed 7 100 "a.cpp" 3 "g")
        7).counters.deallocation_count = 1 := by
  have h := detailed_dealloc_with_ptr_spec
    (DetailedMemoryTracker.track_allocation_with_ptr initDetailed 7 100 "a.cpp" 3 "g") 7
    (by decide) (by decide) _ rfl
  have h2 := h.1 ⟨100, "a.cpp", 3, "g", 0, 1⟩ (by decide) (by decide)
  constructor
  · rw [h2.1]
    decide
  · rw [h2.2.2.2.1]
    decide

/-- One pointer-carrying allocation request: the pointer, the size and the
source location passed to `track_allocation_with_ptr`. -/
structure AllocItem where
  ptr : Nat
  size : Nat
  file : String
  line : Nat
  fname : String
deriving Repr, DecidableEq

/-- Register a list of allocations through
`DetailedMemoryTracker::track_allocation_with_ptr`. -/
def allocMany (d : DetailedTrackerState) (items : List AllocItem) : DetailedTrackerState :=
  items.foldl
    (fun d it =>
      DetailedMemoryTracker.track_allocation_with_ptr d it.ptr it.size it.file it.line it.fname)
    d

/-- Deallocate a list of pointers through
`DetailedMemoryTracker::track_deallocation_with_ptr`. -/
def freeMany (d : DetailedTrackerState) (ptrs : List Nat) : DetailedTrackerState :=
  ptrs.foldl DetailedMemoryTracker.track_deallocation_with_ptr d

/-- The registry entries created by registering `items` in order, starting
from allocation-id counter `k` (each registration increments the id). -/
def buildEntries (k : Nat) : List AllocItem → AllocRegistry
  | [] => []
  | it :: rest =>
      (it.ptr, ⟨it.size, it.file, it.line, it.fname, 0, sn_increment k⟩)
        :: buildEntries (sn_increment k) rest

lemma mapFind_eq_none_iff (l : AllocRegistry) (k : Nat) :
    mapFind l k = none ↔ k ∉ l.map Prod.fst := by
  induction l with
  | nil => simp [mapFind]
  | cons e rest ih =>
    obtain ⟨k', v⟩ := e
    by_cases hk : k' = k
    · subst hk
      simp [mapFind]
    · have hk2 : ¬ (k = k') := fun hh => hk hh.symm
      simp [mapFind, hk, hk2, ih]

lemma mapInsert_not_found (l : AllocRegistry) (k : Nat) (v : AllocationInfo) :
    k ∉ l.map Prod.fst → mapInsert l k v = l ++ [(k, v)] := by
  induction l with
  | nil => intro _; rfl
  | cons e rest ih =>
    intro h
    obtain ⟨k', v'⟩ := e
    simp only [List.map_cons, List.mem_cons] at h
    push_neg at h
    obtain ⟨h1, h2⟩ := h
    have hne : ¬ (k' = k) := fun hh => h1 hh.symm
    simp only [mapInsert, if_neg hne, ih h2, List.cons_append]

lemma mapErase_not_found (l : AllocRegistry) (k : Nat) :
    k ∉ l.map Prod.fst → mapErase l k = l := by
  induction l with
  | nil => intro _; rfl
  | cons e rest ih =>
    intro h
    obtain ⟨k', v'⟩ := e
    simp only [List.map_cons, List.mem_cons] at h
    push_neg at h
    obtain ⟨h1, h2⟩ := h
    have hne : ¬ (k' = k) := fun hh => h1 hh.symm
    simp only [mapErase, if_neg hne, ih h2]

lemma mapErase_eq_filter (l : AllocRegistry) (k : Nat)
    (h : (l.map Prod.fst).Nodup) :
    mapErase l k = l.filter (fun e => decide (e.1 ≠ k)) := by
  induction l with
  | nil => rfl
  | cons e rest ih =>
    obtain ⟨k', v⟩ := e
    simp only [List.map_cons, List.nodup_cons] at h
    obtain ⟨hnotin, hnd⟩ := h
    by_cases hk : k' = k
    · subst hk
      have hall : List.filter (fun e => !decide (e.1 = k')) rest = rest := by
        apply List.filter_eq_self.mpr
        intro a ha
        have hne : a.1 ≠ k' := fun hh => hnotin (hh ▸ List.mem_map_of_mem Prod.fst ha)
        simp [hne]
      simp [mapErase, List.filter_cons, hall]
    · simp [mapErase, List.filter_cons, hk, ih hnd]

lemma foldl_mapErase_filter (ptrs : List Nat) : ∀ l : AllocRegistry,
    (l.map Prod.fst).Nodup →
    ptrs.foldl mapErase l = l.filter (fun e => decide (e.1 ∉ ptrs)) := by
  induction ptrs with
  | nil =>
    intro l _
    simp
  | cons p rest ih =>
    intro l h
    simp only [List.foldl_cons]
    rw [mapErase_eq_filter l p h]
    have hnd' : ((l.filter (fun e => decide (e.1 ≠ p))).map Prod.fst).Nodup :=
      List.Nodup.sublist ((List.filter_sublist l).map Prod.fst) h
    rw [ih _ hnd', List.filter_filter]
    apply List.filter_congr
    intro e _
    by_cases h1 : e.1 = p <;> by_cases h2 : e.1 ∈ rest <;>
      simp [h1, h2, List.mem_cons]

lemma allocMany_allocations (items : List AllocItem) : ∀ d : DetailedTrackerState,
    (∀ it ∈ items, it.ptr ∉ d.allocations.map Prod.fst) →
    (items.map AllocItem.ptr).Nodup →
    (allocMany d items).allocations
      = d.allocations ++ buildEntries d.next_allocation_id items := by
  induction items with
  | nil =>
    intro d _ _
    simp [allocMany, buildEntries]
  | cons it rest ih =>
    intro d hfresh hnd
    simp only [List.map_cons, List.nodup_cons] at hnd
    obtain ⟨hnotin, hnd'⟩ := hnd
    set d1 := DetailedMemoryTracker.track_allocation_with_ptr d it.ptr it.size it.file
      it.line it.fname with hd1
    have hreg : d1.allocations = d.allocations ++
        [(it.ptr, ⟨it.size, it.file, it.line, it.fname, 0,
          sn_increment d.next_allocation_id⟩)] := by
      rw [hd1]
      show mapInsert d.allocations it.ptr _ = _
      exact mapInsert_not_found _ _ _ (hfresh it (by simp))
    have hnid : d1.next_allocation_id = sn_increment d.next_allocation_id := rfl
    have hfresh' : ∀ it2 ∈ rest, it2.ptr ∉ d1.allocations.map Prod.fst := by
      intro it2 h2
      rw [hreg]
      simp only [List.map_append, List.mem_append, List.map_cons, List.map_nil,
        List.mem_cons, List.not_mem_nil]
      push_neg
      refine ⟨hfresh it2 (List.mem_cons_of_mem _ h2), ?_, fun hf => hf⟩
      intro heqp
      exact hnotin (heqp ▸ List.mem_map_of_mem AllocItem.ptr h2)
    have hstep : allocMany d (it :: rest) = allocMany d1 rest := rfl
    rw [hstep, ih d1 hfresh' hnd', hreg, hnid, List.append_assoc]
    rfl

lemma freeMany_allocations (ptrs : List Nat) : ∀ d : DetailedTrackerState,
    (freeMany d ptrs).allocations = ptrs.foldl mapErase d.allocations := by
  induction ptrs with
  | nil => intro d; rfl
  | cons p rest ih =>
    intro d
    have hstep : freeMany d (p :: rest)
        = freeMany (DetailedMemoryTracker.track_deallocation_with_ptr d p) rest := rfl
    rw [hstep, ih]
    simp only [List.foldl_cons]
    congr 1
    cases hf : mapFind d.allocations p with
    | some info => simp [DetailedMemoryTracker.track_deallocation_with_ptr, hf]
    | none =>
      simp [DetailedMemoryTracker.track_deallocation_with_ptr, hf,
        mapErase_not_found _ _ ((mapFind_eq_none_iff _ _).mp hf)]

lemma buildEntries_keys (items : List AllocItem) : ∀ k : Nat,
    (buildEntries k items).map Prod.fst = items.map AllocItem.ptr := by
  induction items with
  | nil => intro k; rfl
  | cons it rest ih =>
    intro k
    simp [buildEntries, ih]

lemma buildEntries_filter_dump (items : List AllocItem) : ∀ (k : Nat) (freed : List Nat),
    ((buildEntries k items).filter (fun e => decide (e.1 ∉ freed))).map
        (fun e => (⟨e.2.size, e.2.file, e.2.line, e.2.function⟩ : LeakEntry))
      = (items.filter (fun it => decide (it.ptr ∉ freed))).map
          (fun it => (⟨it.size, it.file, it.line, it.fname⟩ : LeakEntry)) := by
  induction items with
  | nil => intro k freed; rfl
  | cons it rest ih =>
    intro k freed
    by_cases hm : it.ptr ∈ freed
    · have h1 : List.filter (fun e => decide (e.1 ∉ freed)) (buildEntries k (it :: rest))
          = List.filter (fun e => decide (e.1 ∉ freed)) (buildEntries (sn_increment k) rest) := by
        show List.filter _
            ((it.ptr, (⟨it.size, it.file, it.line, it.fname, 0,
              sn_increment k⟩ : AllocationInfo)) :: buildEntries (sn_increment k) rest) = _
        rw [List.filter_cons]
        simp [hm]
      have h2 : List.filter (fun it2 => decide (it2.ptr ∉ freed)) (it :: rest)
          = List.filter (fun it2 => decide (it2.ptr ∉ freed)) rest := by
        rw [List.filter_cons]
        simp [hm]
      rw [h1, h2, ih]
    · have h1 : List.filter (fun e => decide (e.1 ∉ freed)) (buildEntries k (it :: rest))
          = (it.ptr, (⟨it.size, it.file, it.line, it.fname, 0,
              sn_increment k⟩ : AllocationInfo))
            :: List.filter (fun e => decide (e.1 ∉ freed)) (buildEntries (sn_increment k) rest) := by
        show List.filter _
            ((it.ptr, (⟨it.size, it.file, it.line, it.fname, 0,
              sn_increment k⟩ : AllocationInfo)) :: buildEntries (sn_increment k) rest) = _
        rw [List.filter_cons]
        simp [hm]
      have h2 : List.filter (fun it2 => decide (it2.ptr ∉ freed)) (it :: rest)
          = it :: List.filter (fun it2 => decide (it2.ptr ∉ freed)) rest := by
        rw [List.filter_cons]
        simp [hm]
      rw [h1, h2, List.map_cons, List.map_cons, ih]

/-- Claim C6: starting from the reset detailed tracker, registering any list
of allocations with pairwise distinct pointers through the pointer-carrying
overload and then freeing any list of pointers through the pointer-carrying
deallocation leaves `dump_allocations` reporting exactly one leak entry —
with its size and source location — for each registered pointer that was
not freed, in registration order; the empty registry reports nothing, and
after a reset nothing is reported. -/
theorem leak_dump_exact (items : List AllocItem) (freed : List Nat)
    (hnd : (items.map AllocItem.ptr).Nodup) :
    DetailedMemoryTracker.dump_allocations (freeMany (allocMany initDetailed items) freed)
      = (items.filter (fun it => decide (it.ptr ∉ freed))).map
          (fun it => (⟨it.size, it.file, it.line, it.fname⟩ : LeakEntry))
    ∧ DetailedMemoryTracker.dump_allocations initDetailed = []
    ∧ ∀ d : DetailedTrackerState,
        DetailedMemoryTracker.dump_allocations (DetailedMemoryTracker.reset_stats d) = [] := by
  refine ⟨?_, rfl, fun d => rfl⟩
  have hfresh : ∀ it ∈ items, it.ptr ∉ initDetailed.allocations.map Prod.fst := by
    intro it _
    simp [initDetailed]
  have hreg := allocMany_allocations items initDetailed hfresh hnd
  unfold DetailedMemoryTracker.dump_allocations
  rw [freeMany_allocations freed (allocMany initDetailed items), hreg]
  have hnil : initDetailed.allocations ++ buildEntries initDetailed.next_allocation_id items
      = buildEntries initDetailed.next_allocation_id items := by
    simp [initDetailed]
  rw [hnil]
  have hkeys : ((buildEntries initDetailed.next_allocation_id items).map Prod.fst).Nodup := by
    rw [buildEntries_keys]
    exact hnd
  rw [foldl_mapErase_filter freed _ hkeys]
  exact buildEntries_filter_dump items initDetailed.next_allocation_id freed

/-- Claim C6, witness: allocate three tracked blocks (sizes 10, 20, 30),
free the second, dump — exactly two entries are reported, matching the two
unfreed sizes and call sites. -/
theorem leak_dump_exact_witness :
    DetailedMemoryTracker.dump_allocations
        (freeMany
          (allocMany initDetailed
            [⟨1, 10, "a.cpp", 11, "f1"⟩, ⟨2, 20, "b.cpp", 22, "f2"⟩,
              ⟨3, 30, "c.cpp", 33, "f3"⟩])
          [2])
      = [⟨10, "a.cpp", 11, "f1"⟩, ⟨30, "c.cpp", 33, "f3"⟩] := by
  have h := leak_dump_exact
    [⟨1, 10, "a.cpp", 11, "f1"⟩, ⟨2, 20, "b.cpp", 22, "f2"⟩, ⟨3, 30, "c.cpp", 33, "f3"⟩]
    [2] (by decide)
  rw [h.1]
  rfl
